import Mathlib

/-!
# slackbot

A shallow embedding of `slackbot.go` (package `slackbot`) and the properties of
its command dispatcher.

Conventions of the embedding:

* a Go `string` is its sequence of bytes (`GoString`), `len` is `List.length`;
* a function that can raise a run-time fault returns `Except Panic _`;
* effects (the log, the frames handed to the websocket, the handler
  invocations) are threaded through an explicit `World`;
* the Go library `regexp` is not part of the repository: it is a parameter
  (`RegexpLib`), and the facts about it that the proofs use are collected in
  `RegexpLib.Lawful`.
-/

namespace Slackbot

/-! ## Go values -/

/-- A Go `string`: an immutable sequence of bytes. -/
abbrev GoString := List UInt8

/-- The bytes of a string literal (its UTF-8 encoding). -/
def bytes (s : String) : GoString := s.data.flatMap String.utf8EncodeChar

/-- Run-time faults of the Go runtime and library that the embedded code can raise. -/
inductive Panic where
  /-- slice bounds out of range -/
  | sliceBounds
  /-- index out of range -/
  | indexRange
  /-- interface conversion: a failed type assertion `x.(T)` -/
  | typeAssertion
  /-- invalid memory address or nil pointer dereference -/
  | nilDeref
  /-- makeslice: len out of range -/
  | makeLen
  /-- the fault of `regexp.MustCompile` on a pattern that does not parse -/
  | mustCompile
  deriving DecidableEq, Repr

/-- A Go `error` value, by its message. -/
structure GoError where
  msg : String
  deriving DecidableEq, Repr

/-- `strings.HasPrefix(s, pre)`: `len(s) >= len(pre) && s[0:len(pre)] == pre`. -/
def HasPrefix (s pre : GoString) : Bool :=
  decide (pre.length ≤ s.length) && (s.take pre.length == pre)

/-- The slice expression `s[lo:hi]` on a string, with the bounds check of the
runtime (`0 <= lo <= hi <= len(s)`). -/
def sliceStr (s : GoString) (lo hi : Nat) : Except Panic GoString :=
  if lo ≤ hi ∧ hi ≤ s.length then .ok ((s.take hi).drop lo) else .error .sliceBounds

/-- A value of type `interface{}` as `encoding/json` decodes it into a
`map[string]interface{}`. A `float64` is kept as its 64 bits. -/
inductive Value where
  | null
  | bool (b : Bool)
  | number (bits : Nat)
  | str (s : GoString)
  | array (items : List Value)
  | object (fields : List (GoString × Value))

/-- An inbound event, `map[string]interface{}`: the key/value pairs of the map. -/
abbrev Envelope := List (GoString × Value)

/-! ## The data model of `slackbot.go` -/

/-- `type Response struct`. `Data` is a slice: `none` is the nil slice. -/
structure Response where
  User : GoString
  Time : GoString
  Channel : GoString
  Data : Option (List GoString)

/-- `type handler struct`. The callback `func(io.Writer, Response)`, taken to
return, is represented by the bytes it writes to its writer. -/
structure handler where
  pattern : GoString
  handlerFunc : Response → GoString

/-- The outbound frame that `write` builds: the map with keys `id`, `type`,
`channel` and `text`. -/
structure Frame where
  id : Int
  type : GoString
  channel : GoString
  text : GoString
  deriving DecidableEq, Repr

/-- An open `*websocket.Conn`, by what `WriteJSON` reports for a frame given
the frames written before it (`none` is a nil error). -/
structure Conn where
  WriteJSON : List Frame → Frame → Option GoError

/-- `type Client struct`. `ws` and `incomming` are `none` while nil. -/
structure Client where
  token : GoString
  ws : Option Conn
  handlers : List handler
  incomming : Option (List Envelope)
  count : Int
  Id : GoString
  Name : GoString

/-- The mention-of-id form `"<@" + c.Id + ">"`. -/
def mention (c : Client) : GoString := bytes "<@" ++ c.Id ++ bytes ">"

/-- `func (c *Client) removeHighlight(text string) string`. -/
def removeHighlight (c : Client) (text : GoString) : Except Panic GoString := do
  let text ←
    if HasPrefix text (bytes "<@" ++ c.Id ++ bytes ">") then
      sliceStr text (bytes "<@" ++ c.Id ++ bytes ">").length text.length
    else if HasPrefix text c.Name then
      sliceStr text c.Id.length text.length
    else
      pure text
  if HasPrefix text (bytes ":") then
    sliceStr text (bytes ":").length text.length
  else
    pure text

/-- The last step of `removeHighlight` on its own: a leading `":"` is dropped. -/
def stripColon (t : GoString) : GoString :=
  if HasPrefix t (bytes ":") then t.drop 1 else t

/-! ## Effects -/

/-- A line printed through `log.Printf`, by the call that printed it. -/
inductive LogEntry where
  /-- `log.Printf("Hello\n")` -/
  | hello
  /-- `log.Printf("%d\n", which)` in `parseString` -/
  | which (n : Int)
  /-- `log.Printf("%s@%s: %s \n", ev["user"], ev["channel"], ev["text"])` -/
  | message (user channel text : Value)
  /-- `log.Printf("Unknown: %s\n", ev)` -/
  | unknown (ev : Envelope)

/-- What a run has done so far: the lines logged, the frames handed to
`ws.WriteJSON`, and the handler invocations (index in `c.handlers`, argument),
each in order. -/
structure World where
  log : List LogEntry
  written : List Frame
  invoked : List (Nat × Response)

/-- The Go `int` of a 64-bit platform: two's complement wrap-around. -/
def wrapInt (n : Int) : Int := (n + 2 ^ 63) % 2 ^ 64 - 2 ^ 63

/-- The largest `int`. -/
def maxInt : Int := 2 ^ 63 - 1

/-! ## Package `regexp`, as a parameter -/

/-- A `[]string` as the library hands it out: its elements and its capacity. -/
structure StrSlice where
  elems : List GoString
  cap : Nat

/-- The part of package `regexp` that `parseString` calls: `Compile`, the
methods `MatchString`, `FindAllStringSubmatch`, `FindAllStringSubmatchIndex`
and `NumSubexp` of a compiled `*Regexp`. -/
structure RegexpLib where
  Regexp : Type
  Compile : GoString → Except GoError Regexp
  reMatchString : Regexp → GoString → Bool
  FindAllStringSubmatch : Regexp → GoString → Int → List StrSlice
  FindAllStringSubmatchIndex : Regexp → GoString → Int → List (List Int)
  NumSubexp : Regexp → Nat

/-- `regexp.MatchString(pattern, s)`: compile, report the error if any,
otherwise ask the compiled expression. -/
def RegexpLib.MatchString (L : RegexpLib) (pattern s : GoString) : Bool × Option GoError :=
  match L.Compile pattern with
  | .error e => (false, some e)
  | .ok re => (L.reMatchString re s, none)

/-- `regexp.MustCompile(pattern)`: like `Compile`, with a fault for an error. -/
def RegexpLib.MustCompile (L : RegexpLib) (pattern : GoString) : Except Panic L.Regexp :=
  match L.Compile pattern with
  | .error _ => .error .mustCompile
  | .ok re => .ok re

/-- The text of submatch `i` for the index vector `idx` of one match in `s`:
`s[idx[2*i]:idx[2*i+1]]`, and the empty string when `idx[2*i] < 0` (the group
did not take part in the match). -/
def submatchText (s : GoString) (idx : List Int) (i : Nat) : GoString :=
  match idx[2 * i]?, idx[2 * i + 1]? with
  | some lo, some hi => if 0 ≤ lo then (s.take hi.toNat).drop lo.toNat else []
  | _, _ => []

/-- The behaviour of package `regexp` that the dispatcher relies on: a text
that `MatchString` accepts has a first match in `FindAllStringSubmatch`; each
match is built by `make([]string, 1+NumSubexp)`, so its capacity is its length;
a submatch is the text between its two positions, and the empty string for a
group with a negative position. -/
structure RegexpLib.Lawful (L : RegexpLib) : Prop where
  /-- a text the expression matches has a first match -/
  find_of_match : ∀ re s, L.reMatchString re s = true → L.FindAllStringSubmatch re s (-1) ≠ []
  /-- every match is a slice made with length `1 + NumSubexp`, so of that capacity too -/
  submatch_len : ∀ re s n m, m ∈ L.FindAllStringSubmatch re s n →
    m.elems.length = L.NumSubexp re + 1 ∧ m.cap = m.elems.length
  /-- the strings of `FindAllStringSubmatch` are the texts at the positions of
  `FindAllStringSubmatchIndex` -/
  submatch_text : ∀ re s n, (L.FindAllStringSubmatch re s n).map StrSlice.elems =
    (L.FindAllStringSubmatchIndex re s n).map
      (fun idx => (List.range (L.NumSubexp re + 1)).map (submatchText s idx))

/-- The pattern matches the text: `regexp.MatchString` reports `true`. -/
def matched (L : RegexpLib) (pattern text : GoString) : Prop :=
  (L.MatchString pattern text).1 = true

instance (L : RegexpLib) (pattern text : GoString) : Decidable (matched L pattern text) :=
  inferInstanceAs (Decidable ((L.MatchString pattern text).1 = true))

/-! ## The dispatcher -/

/-- The loop `for key, handler := range c.handlers` of `parseString`, from
index `key` on, with the current value of `which`. -/
def selectLoop (L : RegexpLib) (text : GoString) : List handler → Nat → Int → Int
  | [], _, which => which
  | h :: rest, key, which =>
    selectLoop L text rest (key + 1)
      (if (L.MatchString h.pattern text).1 then (key : Int) else which)

/-- `make([]string, n)`. -/
def makeSlice (n : Int) : Except Panic (List GoString) :=
  if n < 0 then .error .makeLen else .ok (List.replicate n.toNat [])

/-- The loop `for i := 1; i < cap(m); i++ { data[i-1] = m[i] }` of `parseString`. -/
def copyLoop (m : StrSlice) (data : List GoString) : Except Panic (List GoString) :=
  (List.range' 1 (m.cap - 1)).foldlM
    (fun data i =>
      match m.elems[i]? with
      | none => .error .indexRange
      | some v => if i - 1 < data.length then .ok (data.set (i - 1) v) else .error .indexRange)
    data

/-- The index expression `hs[i]` on the handler list. -/
def indexHandlers (hs : List handler) (i : Int) : Except Panic handler :=
  if i < 0 then .error .indexRange
  else match hs[i.toNat]? with
    | some h => .ok h
    | none => .error .indexRange

/-- `func (c *Client) parseString(text string) (int, []string, error)`. -/
def parseString (L : RegexpLib) (c : Client) (text : GoString) (w : World) :
    Except Panic ((Int × Option (List GoString) × Option GoError) × World) := do
  let which := selectLoop L text c.handlers 0 (-1)
  let w := { w with log := w.log ++ [.which which] }
  if which ≥ 0 then
    let h ← indexHandlers c.handlers which
    let re ← L.MustCompile h.pattern
    let ms := L.FindAllStringSubmatch re text (-1)
    let m0 ← match ms with
      | m :: _ => pure m
      | [] => throw .indexRange
    let data ← makeSlice ((m0.cap : Int) - 1)
    let data ← copyLoop m0 data
    return ((which, some data, none), w)
  else
    return ((-1, none, none), w)

/-- `func (c *Client) write(messageId int, channel string, text string) error`. -/
def write (c : Client) (messageId : Int) (channel text : GoString) (w : World) :
    Except Panic (Option GoError × World) :=
  let data : Frame :=
    { id := messageId, type := bytes "message", channel := channel, text := text }
  match c.ws with
  | none => .error .nilDeref
  | some ws => .ok (ws.WriteJSON w.written data, { w with written := w.written ++ [data] })

/-- `func (c *Client) callHandler(channel, user, time, text string) error`.
The result carries the client after the call (`c.count` is updated in place). -/
def callHandler (L : RegexpLib) (c : Client) (channel user time text : GoString) (w : World) :
    Except Panic (Option GoError × Client × World) := do
  if (HasPrefix text (bytes "<@" ++ c.Id ++ bytes ">") || HasPrefix text c.Name
      || HasPrefix channel (bytes "D")) && user != c.Id then
    let text ← removeHighlight c text
    let ((which, data, err), w) ← parseString L c text w
    if err.isSome then
      return (err, c, w)
    else if which = -1 then
      return (none, c, w)
    else
      let response : Response :=
        { Channel := channel, User := user, Time := time, Data := data }
      let h ← indexHandlers c.handlers which
      let out := h.handlerFunc response
      let w := { w with invoked := w.invoked ++ [(which.toNat, response)] }
      let c := { c with count := wrapInt (c.count + 1) }
      let (err, w) ← write c c.count channel out w
      return (err, c, w)
  else
    return (none, c, w)

/-- `func New(token string) (*Client, error)`. -/
def New (token : GoString) : Option Client × Option GoError :=
  if token = bytes "" then
    (none, some ⟨"Missing slack api token"⟩)
  else
    (some { token := token, ws := none, handlers := [], incomming := none,
            count := 0, Id := [], Name := [] }, none)

/-- `func (c *Client) AddHandler(pattern, handlerFunc) error`. -/
def AddHandler (c : Client) (pattern : GoString) (handlerFunc : Response → GoString) :
    Client × Option GoError :=
  ({ c with handlers := c.handlers ++ [{ pattern := pattern, handlerFunc := handlerFunc }] }, none)

/-! ## The router of `Start` -/

/-- The index expression `ev[key]` on the map: the zero value (nil) for an absent key. -/
def Envelope.index (ev : Envelope) (key : GoString) : Value :=
  (ev.lookup key).getD .null

/-- The type assertion `x.(string)`. -/
def assertString : Value → Except Panic GoString
  | .str s => .ok s
  | _ => .error .typeAssertion

/-- The test `if _, ok := data["type"]; ok` of `read`: the envelope is sent to
`c.incomming`. -/
def read.forwards (data : Envelope) : Bool :=
  (data.lookup (bytes "type")).isSome

/-- `func (c *Client) read()` over the envelopes `ReadJSON` decodes before its
first error: the ones sent to `c.incomming`, in order. -/
def read (frames : List Envelope) : List Envelope :=
  frames.filter read.forwards

/-- The arguments of a `go c.callHandler(channel, user, time, text)` statement. -/
structure Spawn where
  channel : GoString
  user : GoString
  time : GoString
  text : GoString
  deriving DecidableEq, Repr

/-- The body of the `for`/`select` loop of `Start` for one envelope `ev`
received from `c.incomming`: the `switch ev["type"].(string)`. The arguments of
the `go` statement are evaluated here, the call itself runs elsewhere. -/
def Start.handle (ev : Envelope) (w : World) : Except Panic (Option Spawn × World) := do
  let t ← assertString (ev.index (bytes "type"))
  if t = bytes "hello" then
    return (none, { w with log := w.log ++ [.hello] })
  else if t = bytes "message" then
    let channel ← assertString (ev.index (bytes "channel"))
    let user ← assertString (ev.index (bytes "user"))
    let ts ← assertString (ev.index (bytes "ts"))
    let text ← assertString (ev.index (bytes "text"))
    return (some { channel := channel, user := user, time := ts, text := text },
      { w with log := w.log ++ [.message (ev.index (bytes "user"))
          (ev.index (bytes "channel")) (ev.index (bytes "text"))] })
  else if t = bytes "user_typing" then
    return (none, w)
  else if t = bytes "channel_joined" then
    return (none, w)
  else if t = bytes "channel_left" then
    return (none, w)
  else if t = bytes "presence_change" then
    return (none, w)
  else if t = bytes "reconnect_url" then
    return (none, w)
  else
    return (none, { w with log := w.log ++ [.unknown ev] })

/-- The `for` loop of `Start` over the envelopes received from `c.incomming`:
the dispatch tasks started, in order. A fault ends the run. -/
def Start.loop : List Envelope → World → Except Panic (List Spawn × World)
  | [], w => .ok ([], w)
  | ev :: rest, w => do
    let (s, w) ← Start.handle ev w
    let (ss, w) ← Start.loop rest w
    return (s.toList ++ ss, w)

/-- The value is a string. -/
def Value.isStr : Value → Bool
  | .str _ => true
  | _ => false

/-- The envelopes with the fields the `switch` of `Start` reads: `type` is a
string, and for a `message` so are `channel`, `user`, `ts` and `text`. -/
def Envelope.wellFormed (ev : Envelope) : Bool :=
  match ev.index (bytes "type") with
  | .str t =>
    if t = bytes "message" then
      (ev.index (bytes "channel")).isStr && (ev.index (bytes "user")).isStr &&
        (ev.index (bytes "ts")).isStr && (ev.index (bytes "text")).isStr
    else true
  | _ => false

/-- The same condition as a proposition, with the strings named. -/
def Envelope.WellFormed (ev : Envelope) : Prop :=
  ∃ t, ev.index (bytes "type") = .str t ∧
    (t = bytes "message" →
      ∃ ch u ts tx, ev.index (bytes "channel") = .str ch ∧ ev.index (bytes "user") = .str u ∧
        ev.index (bytes "ts") = .str ts ∧ ev.index (bytes "text") = .str tx)

/-! ## A small regular-expression engine

An implementation of the `RegexpLib` interface for a fragment of the pattern
language: literal bytes and groups of literal bytes, a group optionally followed
by `?`. `Compile` rejects every other pattern. It serves to instantiate the
theorems that assume a lawful library. An empty match is stepped over by one byte. -/

namespace Frag

/-- The bytes with a special meaning in a pattern: `\ . + * ? ( ) | [ ] { } ^ $`. -/
def isMeta (b : UInt8) : Bool :=
  [92, 46, 43, 42, 63, 40, 41, 124, 91, 93, 123, 125, 94, 36].contains b

/-- One element of a compiled pattern: a literal byte, or capture group number
`g` (from 1) around a run of literal bytes, optional when `opt`. -/
inductive Item where
  | lit (b : UInt8)
  | group (g : Nat) (lits : List UInt8) (opt : Bool)

/-- A compiled pattern: its elements in order and its number of groups. -/
structure Prog where
  items : List Item
  ngroups : Nat

/-- The parser: the remaining bytes, the literals of the group being read (if
one is open), the elements read so far in reverse, and the groups closed so far. -/
def compileItems : List UInt8 → Option (List UInt8) → List Item → Nat → Except GoError Prog
  | [], none, acc, n => .ok ⟨acc.reverse, n⟩
  | [], some _, _, _ => .error ⟨"error parsing regexp: missing closing )"⟩
  | b :: rest, none, acc, n =>
    if b = 40 then compileItems rest (some []) acc n
    else if b = 63 then
      match acc with
      | .group g lits false :: acc' => compileItems rest none (.group g lits true :: acc') n
      | _ => .error ⟨"error parsing regexp: repetition outside the fragment"⟩
    else if isMeta b then .error ⟨"error parsing regexp: operator outside the fragment"⟩
    else compileItems rest none (.lit b :: acc) n
  | b :: rest, some cur, acc, n =>
    if b = 41 then compileItems rest none (.group (n + 1) cur.reverse false :: acc) (n + 1)
    else if isMeta b then .error ⟨"error parsing regexp: operator outside the fragment"⟩
    else compileItems rest (some (b :: cur)) acc n

/-- A run of literal bytes at the head of the text: the text after it. -/
def matchLits : List UInt8 → GoString → Option GoString
  | [], s => some s
  | _ :: _, [] => none
  | b :: bs, c :: s => if b = c then matchLits bs s else none

/-- The elements matched against the text `s`, which starts at offset `pos`:
the end offset and the group positions, the group taken first when it is
optional. `caps` holds the positions of group `g` at `2g-2` and `2g-1`. -/
def matchItems : List Item → GoString → Nat → List Int → Option (Nat × List Int)
  | [], _, pos, caps => some (pos, caps)
  | .lit _ :: _, [], _, _ => none
  | .lit b :: items, c :: s, pos, caps =>
    if b = c then matchItems items s (pos + 1) caps else none
  | .group g lits opt :: items, s, pos, caps =>
    let skip := if opt then matchItems items s pos caps else none
    match matchLits lits s with
    | none => skip
    | some s' =>
      match matchItems items s' (pos + lits.length)
          ((caps.set (2 * g - 2) (pos : Int)).set (2 * g - 1) ((pos + lits.length : Nat) : Int)) with
      | some r => some r
      | none => skip

/-- The leftmost match that starts in the text `s`, which starts at offset
`pos`: its index vector (start, end, then the group positions). -/
def searchFrom (p : Prog) : GoString → Nat → Option (List Int)
  | [], pos =>
    match matchItems p.items [] pos (List.replicate (2 * p.ngroups) (-1)) with
    | some (e, caps) => some ((pos : Int) :: (e : Int) :: caps)
    | none => none
  | c :: s, pos =>
    match matchItems p.items (c :: s) pos (List.replicate (2 * p.ngroups) (-1)) with
    | some (e, caps) => some ((pos : Int) :: (e : Int) :: caps)
    | none => searchFrom p s (pos + 1)

/-- The leftmost match at or after offset `pos` of `s`. -/
def doExecute (p : Prog) (s : GoString) (pos : Nat) : Option (List Int) :=
  searchFrom p (s.drop pos) pos

/-- The loop of successive matches: search position `pos`, `i` matches
delivered, end of the previous match, at most `n` matches. -/
def allLoop (p : Prog) (s : GoString) : Nat → Nat → Nat → Int → Nat → List (List Int)
  | 0, _, _, _, _ => []
  | fuel + 1, pos, i, prevMatchEnd, n =>
    if i < n ∧ pos ≤ s.length then
      match doExecute p s pos with
      | none => []
      | some m =>
        let m0 := m[0]?.getD 0
        let m1 := m[1]?.getD 0
        let accept := !(decide (m1 = (pos : Int)) && decide (m0 = prevMatchEnd))
        let pos' := if m1 = (pos : Int) then pos + 1 else m1.toNat
        let rest := allLoop p s fuel pos' (if accept then i + 1 else i) m1 n
        if accept then m :: rest else rest
    else []

/-- All successive matches of the pattern in `s`, at most `n` when `n ≥ 0`. -/
def allMatches (p : Prog) (s : GoString) (n : Int) : List (List Int) :=
  allLoop p s (s.length + 2) 0 0 (-1) (if n < 0 then s.length + 1 else n.toNat)

/-- The engine as a library. -/
def lib : RegexpLib where
  Regexp := Prog
  Compile := fun pattern => compileItems pattern none [] 0
  reMatchString := fun re s => (doExecute re s 0).isSome
  FindAllStringSubmatch := fun re s n =>
    (allMatches re s n).map
      (fun idx => ⟨(List.range (re.ngroups + 1)).map (submatchText s idx), re.ngroups + 1⟩)
  FindAllStringSubmatchIndex := fun re s n => allMatches re s n
  NumSubexp := fun re => re.ngroups

end Frag

/-! ## Concrete inputs -/

/-- A client as `connect` leaves it for the bot `U123` named `bot`, with no handlers. -/
def botU123 : Client :=
  { token := bytes "xoxb-1", ws := none, handlers := [], incomming := none,
    count := 0, Id := bytes "U123", Name := bytes "bot" }

/-- A client whose id has the usual nine characters, named `bot`. -/
def botLongId : Client :=
  { token := bytes "xoxb-1", ws := none, handlers := [], incomming := none,
    count := 0, Id := bytes "U024BE7LH", Name := bytes "bot" }

/-- A connection whose writes all succeed. -/
def okConn : Conn := ⟨fun _ _ => none⟩

/-- A connected client for the bot `U123` named `bot` with four handlers: the
patterns `hello`, `hel(l` (which does not compile), `he(y)?(l)lo` and `bye`. -/
def demo : Client :=
  { token := bytes "xoxb-1", ws := some okConn,
    handlers :=
      [⟨bytes "hello", fun r => bytes "hi " ++ r.User⟩,
       ⟨bytes "hel(l", fun _ => bytes "never"⟩,
       ⟨bytes "he(y)?(l)lo", fun r => bytes "hello " ++ r.User ++ bytes " in " ++ r.Channel⟩,
       ⟨bytes "bye", fun _ => bytes "bye"⟩],
    incomming := some [], count := 0, Id := bytes "U123", Name := bytes "bot" }

/-- The world before anything happened. -/
def w0 : World := ⟨[], [], []⟩

/-- A `message` envelope without a `text` field. -/
def noTextEv : Envelope :=
  [(bytes "type", .str (bytes "message")), (bytes "channel", .str (bytes "C1")),
   (bytes "user", .str (bytes "U9")), (bytes "ts", .str (bytes "1.5"))]

/-- An envelope whose `type` is a number. -/
def numTypeEv : Envelope := [(bytes "type", .number 0)]

/-- The `hello` envelope. -/
def helloEv : Envelope := [(bytes "type", .str (bytes "hello"))]

/-! ## Lemmas on strings -/

theorem hasPrefix_iff (s pre : GoString) : HasPrefix s pre = true ↔ pre <+: s := by
  unfold HasPrefix
  rw [Bool.and_eq_true, decide_eq_true_iff, beq_iff_eq, List.prefix_iff_eq_take]
  constructor
  · rintro ⟨_, h⟩
    exact h.symm
  · intro h
    refine ⟨?_, h.symm⟩
    have := congrArg List.length h
    rw [List.length_take] at this
    omega

theorem sliceStr_to_end (s : GoString) (lo : Nat) (h : lo ≤ s.length) :
    sliceStr s lo s.length = .ok (s.drop lo) := by
  unfold sliceStr
  rw [if_pos ⟨h, le_refl _⟩, List.take_length]

theorem sliceStr_out_of_range (s : GoString) (lo : Nat) (h : s.length < lo) :
    sliceStr s lo s.length = .error .sliceBounds := by
  unfold sliceStr
  rw [if_neg]
  omega

/-- The second `if` of `removeHighlight`, as an equation. -/
theorem colon_step (t : GoString) :
    (if HasPrefix t (bytes ":") then sliceStr t (bytes ":").length t.length
      else (pure t : Except Panic GoString)) = .ok (stripColon t) := by
  unfold stripColon
  by_cases h : HasPrefix t (bytes ":") = true
  · rw [if_pos h, if_pos h]
    have hp := (hasPrefix_iff _ _).1 h
    have : (bytes ":").length ≤ t.length := hp.length_le
    rw [sliceStr_to_end _ _ this]
    rfl
  · rw [if_neg h, if_neg h]
    rfl

/-! ## removeHighlight -/

/-- C3 (as amended): for every client whose id is `U123`, `removeHighlight` applied to
`"<@U123> hello"` returns `" hello"`: the mention is removed and the space that
followed it is kept. -/
theorem removeHighlight_mention_keeps_space (c : Client) :
    removeHighlight { c with Id := bytes "U123" } (bytes "<@U123> hello")
      = .ok (bytes " hello") := by
  rfl

/-- C3 (as stated) fails: for the client with id `U123` the result on
`"<@U123> hello"` is not `"hello"`. -/
theorem removeHighlight_mention_not_hello :
    botU123.Id = bytes "U123" ∧
    removeHighlight botU123 (bytes "<@U123> hello") ≠ .ok (bytes "hello") := by
  refine ⟨rfl, ?_⟩
  rw [show removeHighlight botU123 (bytes "<@U123> hello") = .ok (bytes " hello") from rfl]
  intro h
  injection h with h
  exact absurd h (by decide)

/-- The outcome of `removeHighlight` in each of its three cases. -/
theorem removeHighlight_cases (c : Client) (text : GoString) :
    removeHighlight c text =
      if mention c <+: text then .ok (stripColon (text.drop (mention c).length))
      else if c.Name <+: text then
        (if c.Id.length ≤ text.length then .ok (stripColon (text.drop c.Id.length))
          else .error .sliceBounds)
      else .ok (stripColon text) := by
  have hc := colon_step
  unfold removeHighlight mention
  by_cases h1 : (bytes "<@" ++ c.Id ++ bytes ">") <+: text
  · have h1' : HasPrefix text (bytes "<@" ++ c.Id ++ bytes ">") = true := (hasPrefix_iff _ _).2 h1
    simp only [if_pos h1, if_pos h1', sliceStr_to_end _ _ h1.length_le, bind, Except.bind, hc]
  · have h1' : ¬ HasPrefix text (bytes "<@" ++ c.Id ++ bytes ">") = true :=
      fun h => h1 ((hasPrefix_iff _ _).1 h)
    by_cases h2 : c.Name <+: text
    · have h2' : HasPrefix text c.Name = true := (hasPrefix_iff _ _).2 h2
      by_cases h3 : c.Id.length ≤ text.length
      · simp only [if_neg h1, if_neg h1', if_pos h2, if_pos h2', if_pos h3,
          sliceStr_to_end _ _ h3, bind, Except.bind, hc]
      · simp only [if_neg h1, if_neg h1', if_pos h2, if_pos h2', if_neg h3,
          sliceStr_out_of_range _ _ (not_le.1 h3), bind, Except.bind]
    · have h2' : ¬ HasPrefix text c.Name = true := fun h => h2 ((hasPrefix_iff _ _).1 h)
      simp only [if_neg h1, if_neg h1', if_neg h2, if_neg h2', bind, Except.bind, pure,
        Except.pure, hc]
      exact hc text

/-- What the name branch of `removeHighlight` does when it returns: on a text
that begins with the name and not with the mention of the id, and is at least as
long as the id, the first `len(Id)` bytes are removed and then the optional colon. -/
theorem removeHighlight_name_branch (c : Client) (text : GoString)
    (hname : c.Name <+: text) (hmen : ¬ mention c <+: text)
    (hlen : c.Id.length ≤ text.length) :
    removeHighlight c text = .ok (stripColon (text.drop c.Id.length)) := by
  rw [removeHighlight_cases, if_neg hmen, if_pos hname, if_pos hlen]

/-- C4 at its failing input: for the bot `U024BE7LH` named `bot`, the text
`"bot: help me please"` begins with the name and not with `"<@U024BE7LH>"`;
`removeHighlight` returns `" me please"`, the text without its first
`len(Id) = 9` bytes, and not `" please"`, the text without its first
`len(Id)+3 = 12` bytes. -/
theorem removeHighlight_name_not_mention_length :
    (botLongId.Name <+: bytes "bot: help me please" ∧
      ¬ mention botLongId <+: bytes "bot: help me please" ∧
      (mention botLongId).length = botLongId.Id.length + 3) ∧
    removeHighlight botLongId (bytes "bot: help me please") = .ok (bytes " me please") ∧
    bytes " me please" = (bytes "bot: help me please").drop botLongId.Id.length ∧
    stripColon ((bytes "bot: help me please").drop (botLongId.Id.length + 3))
      = bytes " please" ∧
    removeHighlight botLongId (bytes "bot: help me please")
      ≠ .ok (stripColon ((bytes "bot: help me please").drop (botLongId.Id.length + 3))) := by
  refine ⟨⟨by decide, by decide, by decide⟩, rfl, by decide, by decide, ?_⟩
  rw [show removeHighlight botLongId (bytes "bot: help me please")
      = .ok (bytes " me please") from rfl]
  intro h
  injection h with h
  exact absurd h (by decide)

/-- C10 at its failing input: for the bot `U024BE7LH` named `bot`, the text
`"bot: hi"` begins with the name, has fewer bytes than the id, and
`text[len(c.Id):len(text)]` is out of range. -/
theorem removeHighlight_slice_out_of_range :
    (botLongId.Name <+: bytes "bot: hi" ∧ ¬ mention botLongId <+: bytes "bot: hi" ∧
      (bytes "bot: hi").length < botLongId.Id.length) ∧
    removeHighlight botLongId (bytes "bot: hi") = .error .sliceBounds :=
  ⟨⟨by decide, by decide, by decide⟩, rfl⟩

/-- Whenever `removeHighlight` returns, the result is a suffix of the text. -/
theorem removeHighlight_suffix (c : Client) (text t : GoString)
    (h : removeHighlight c text = .ok t) : t <:+ text := by
  have hs : ∀ u : GoString, stripColon u <:+ u := by
    intro u
    unfold stripColon
    split
    · exact List.drop_suffix _ _
    · exact List.suffix_refl _
  rw [removeHighlight_cases] at h
  split at h
  · injection h with h
    exact h ▸ (hs _).trans (List.drop_suffix _ _)
  · split at h
    · split at h
      · injection h with h
        exact h ▸ (hs _).trans (List.drop_suffix _ _)
      · exact absurd h (by simp)
    · injection h with h
      exact h ▸ hs _

/-! ## parseString -/

/-- What the `range` loop computes: `which` is left as it was when no later
pattern matches, and is otherwise the index of the last pattern that matches. -/
theorem selectLoop_spec (L : RegexpLib) (text : GoString) (hs : List handler) :
    ∀ (key : Nat) (which : Int),
      (selectLoop L text hs key which = which ∧ ∀ h ∈ hs, ¬ matched L h.pattern text) ∨
      (∃ i h, selectLoop L text hs key which = ((key + i : Nat) : Int) ∧
        hs[i]? = some h ∧ matched L h.pattern text ∧
        ∀ j h', i < j → hs[j]? = some h' → ¬ matched L h'.pattern text) := by
  induction hs with
  | nil =>
    intro key which
    exact Or.inl ⟨rfl, by simp⟩
  | cons h rest ih =>
    intro key which
    rw [selectLoop]
    by_cases hm : (L.MatchString h.pattern text).1 = true
    · rw [if_pos hm]
      rcases ih (key + 1) (key : Int) with ⟨hr, hnone⟩ | ⟨i, h', hr, hi, hmi, hlast⟩
      · refine Or.inr ⟨0, h, by rw [hr]; rfl, List.getElem?_cons_zero, hm, ?_⟩
        intro j h' hj hget
        obtain ⟨j', rfl⟩ : ∃ j', j = j' + 1 := ⟨j - 1, by omega⟩
        rw [List.getElem?_cons_succ] at hget
        exact hnone h' (List.getElem?_mem hget)
      · refine Or.inr ⟨i + 1, h', by rw [hr]; congr 1; omega, by simpa using hi, hmi, ?_⟩
        intro j h'' hj hget
        obtain ⟨j', rfl⟩ : ∃ j', j = j' + 1 := ⟨j - 1, by omega⟩
        rw [List.getElem?_cons_succ] at hget
        exact hlast j' h'' (by omega) hget
    · rw [if_neg hm]
      rcases ih (key + 1) which with ⟨hr, hnone⟩ | ⟨i, h', hr, hi, hmi, hlast⟩
      · refine Or.inl ⟨hr, ?_⟩
        intro h' hmem
        rcases List.mem_cons.1 hmem with rfl | hmem
        · exact hm
        · exact hnone h' hmem
      · refine Or.inr ⟨i + 1, h', by rw [hr]; congr 1; omega, by simpa using hi, hmi, ?_⟩
        intro j h'' hj hget
        obtain ⟨j', rfl⟩ : ∃ j', j = j' + 1 := ⟨j - 1, by omega⟩
        rw [List.getElem?_cons_succ] at hget
        exact hlast j' h'' (by omega) hget

/-- The copy loop from index `k + 1` on, for a slice of `n + 1` elements. -/
theorem copyLoop_from (elems : List GoString) (n : Nat) (hlen : elems.length = n + 1) :
    ∀ (d k : Nat) (data : List GoString), k + d = n → data.length = n →
      (List.range' (k + 1) d).foldlM
        (fun data i =>
          match elems[i]? with
          | none => (.error .indexRange : Except Panic (List GoString))
          | some v =>
            if i - 1 < data.length then .ok (data.set (i - 1) v) else .error .indexRange)
        data = .ok (data.take k ++ elems.tail.drop k) := by
  intro d
  induction d with
  | zero =>
    intro k data hk hdata
    have hk' : k = n := by omega
    subst hk'
    have : elems.tail.length = k := by rw [List.length_tail, hlen]; rfl
    rw [List.range'_zero, List.foldlM_nil, ← hdata, List.take_length,
      List.drop_of_length_le (by omega), List.append_nil]
    rfl
  | succ d ih =>
    intro k data hk hdata
    have hk1 : k + 1 < elems.length := by omega
    rw [List.range'_succ, List.foldlM_cons]
    have hget : elems[k + 1]? = some elems[k + 1] := List.getElem?_eq_getElem hk1
    simp only [hget, Nat.add_sub_cancel, hdata, show k < n by omega, if_true, bind, Except.bind]
    rw [ih (k + 1) (data.set k elems[k + 1]) (by omega) (by rw [List.length_set, hdata])]
    congr 1
    have htl : elems.tail.length = n := by rw [List.length_tail, hlen]; rfl
    apply List.ext_getElem?
    intro j
    rcases Nat.lt_trichotomy j k with hj | hj | hj
    · rw [List.getElem?_append_left (by rw [List.length_take, List.length_set]; omega),
        List.getElem?_append_left (by rw [List.length_take]; omega),
        List.getElem?_take_of_lt (by omega), List.getElem?_take_of_lt hj,
        List.getElem?_set_ne (by omega)]
    · subst hj
      rw [List.getElem?_append_left (by rw [List.length_take, List.length_set]; omega),
        List.getElem?_append_right (by rw [List.length_take]; omega),
        List.getElem?_take_of_lt (by omega), List.getElem?_set_self (by omega),
        List.length_take, hdata, Nat.min_eq_left (by omega), Nat.sub_self, List.getElem?_drop,
        ← List.drop_one, List.getElem?_drop]
      rw [show 1 + (j + 0) = j + 1 by omega]
      exact hget.symm
    · rw [List.getElem?_append_right (by rw [List.length_take, List.length_set]; omega),
        List.getElem?_append_right (by rw [List.length_take]; omega),
        List.length_take, List.length_take, List.length_set, hdata,
        Nat.min_eq_left (by omega), Nat.min_eq_left (by omega),
        List.getElem?_drop, List.getElem?_drop]
      congr 1
      omega

/-- On a slice whose capacity is its length, at least one, `make` succeeds and
the copy loop fills the fresh slice with the elements after the first. -/
theorem copyLoop_tail (m : StrSlice) (hcap : m.cap = m.elems.length) (hpos : 0 < m.elems.length) :
    ∃ v, makeSlice ((m.cap : Int) - 1) = .ok v ∧ copyLoop m v = .ok m.elems.tail := by
  obtain ⟨n, hn⟩ : ∃ n, m.elems.length = n + 1 := ⟨m.elems.length - 1, by omega⟩
  refine ⟨List.replicate n [], ?_, ?_⟩
  · unfold makeSlice
    rw [hcap, hn, if_neg (by omega)]
    congr 2
    omega
  · unfold copyLoop
    rw [hcap, hn, Nat.add_sub_cancel]
    have := copyLoop_from m.elems n hn n 0 (List.replicate n []) (by omega) (by simp)
    simpa using this

/-- A pattern that matches compiles, and the compiled expression matches. -/
theorem matched_iff (L : RegexpLib) (pattern text : GoString) :
    matched L pattern text ↔
      ∃ re, L.Compile pattern = .ok re ∧ L.reMatchString re text = true := by
  unfold matched RegexpLib.MatchString
  cases hc : L.Compile pattern with
  | error e => simp
  | ok re => simp

/-- The two outcomes of `parseString` with a lawful library: no pattern matches
and the result is `(-1, nil, nil)`, or `i` is the last index whose pattern
matches and the data are the submatches of the first match after the whole match. -/
theorem parseString_spec (L : RegexpLib) (hL : L.Lawful) (c : Client) (text : GoString)
    (w : World) :
    ((∀ h ∈ c.handlers, ¬ matched L h.pattern text) ∧
      parseString L c text w
        = .ok ((-1, none, none), { w with log := w.log ++ [.which (-1)] })) ∨
    (∃ (i : Nat) (h : handler) (re : L.Regexp) (m : StrSlice) (rest : List StrSlice),
      c.handlers[i]? = some h ∧ matched L h.pattern text ∧
      (∀ (j : Nat) (h' : handler), i < j → c.handlers[j]? = some h' →
        ¬ matched L h'.pattern text) ∧
      L.Compile h.pattern = .ok re ∧ L.FindAllStringSubmatch re text (-1) = m :: rest ∧
      parseString L c text w
        = .ok (((i : Int), some m.elems.tail, none),
            { w with log := w.log ++ [.which (i : Int)] })) := by
  rcases selectLoop_spec L text c.handlers 0 (-1) with ⟨hr, hnone⟩ | ⟨i, h, hr, hi, hm, hlast⟩
  · refine Or.inl ⟨hnone, ?_⟩
    unfold parseString
    simp only [hr]
    rfl
  · obtain ⟨re, hre, hmatch⟩ := (matched_iff L h.pattern text).1 hm
    have hne := hL.find_of_match re text hmatch
    obtain ⟨m, rest, hms⟩ : ∃ m rest, L.FindAllStringSubmatch re text (-1) = m :: rest := by
      cases hfa : L.FindAllStringSubmatch re text (-1) with
      | nil => exact absurd hfa hne
      | cons m rest => exact ⟨m, rest, rfl⟩
    have hshape := hL.submatch_len re text (-1) m (by rw [hms]; exact List.mem_cons_self _ _)
    obtain ⟨v, hmk, hcopy⟩ := copyLoop_tail m hshape.2 (by omega)
    refine Or.inr ⟨i, h, re, m, rest, hi, hm, hlast, hre, hms, ?_⟩
    rw [Nat.zero_add] at hr
    have hidx : indexHandlers c.handlers (i : Int) = .ok h := by
      unfold indexHandlers
      rw [if_neg (by omega), Int.toNat_ofNat, hi]
    have hmust : L.MustCompile h.pattern = .ok re := by
      unfold RegexpLib.MustCompile
      rw [hre]
    unfold parseString
    simp only [hr, ge_iff_le, Int.natCast_nonneg, if_true, hidx, hmust, hms, hmk, hcopy, bind,
      Except.bind, pure, Except.pure]

/-- C1: with a lawful `regexp`, `parseString` returns; the index returned is the
greatest index whose pattern matches the text (the last match wins), and it is
`-1`, with nil data, exactly when no registered pattern matches. -/
theorem parseString_selects_last_match (L : RegexpLib) (hL : L.Lawful) (c : Client)
    (text : GoString) (w : World) :
    ∃ (which : Int) (data : Option (List GoString)) (w' : World),
      parseString L c text w = .ok ((which, data, none), w') ∧
      ((which = -1 ∧ data = none) ↔ ∀ h ∈ c.handlers, ¬ matched L h.pattern text) ∧
      (which = -1 ↔ ∀ h ∈ c.handlers, ¬ matched L h.pattern text) ∧
      ((∃ h ∈ c.handlers, matched L h.pattern text) →
        ∃ (i : Nat) (h : handler), which = (i : Int) ∧ c.handlers[i]? = some h ∧
          matched L h.pattern text ∧
          ∀ (j : Nat) (h' : handler), c.handlers[j]? = some h' →
            matched L h'.pattern text → j ≤ i) := by
  rcases parseString_spec L hL c text w with
    ⟨hnone, hp⟩ | ⟨i, h, re, m, rest, hi, hm, hlast, _, _, hp⟩
  · refine ⟨-1, none, _, hp, ?_, ?_, ?_⟩
    · exact ⟨fun _ => hnone, fun _ => ⟨rfl, rfl⟩⟩
    · exact ⟨fun _ => hnone, fun _ => rfl⟩
    · rintro ⟨h, hmem, hm⟩
      exact absurd hm (hnone h hmem)
  · have hmem : h ∈ c.handlers := List.getElem?_mem hi
    refine ⟨(i : Int), some m.elems.tail, _, hp, ?_, ?_, ?_⟩
    · constructor
      · rintro ⟨hneg, _⟩
        omega
      · intro hnone
        exact absurd hm (hnone h hmem)
    · constructor
      · intro hneg
        omega
      · intro hnone
        exact absurd hm (hnone h hmem)
    · intro _
      refine ⟨i, h, rfl, hi, hm, ?_⟩
      intro j h' hj hmj
      by_contra hlt
      exact hlast j h' (by omega) hj hmj

/-- C5: with a lawful `regexp`, when some pattern matches the text the data
returned by `parseString` have one element per capture group of the selected
pattern, element `k` being the text of group `k+1` in the first match: the empty
string for a group that took no part in the match, and no element for a pattern
without groups. -/
theorem parseString_data_of_first_match (L : RegexpLib) (hL : L.Lawful) (c : Client)
    (text : GoString) (w : World) (hm : ∃ h ∈ c.handlers, matched L h.pattern text) :
    ∃ (i : Nat) (h : handler) (re : L.Regexp) (m : StrSlice) (rest : List StrSlice)
      (idx : List Int) (irest : List (List Int)) (data : List GoString) (w' : World),
      parseString L c text w = .ok (((i : Int), some data, none), w') ∧
      c.handlers[i]? = some h ∧ L.Compile h.pattern = .ok re ∧
      L.FindAllStringSubmatch re text (-1) = m :: rest ∧
      L.FindAllStringSubmatchIndex re text (-1) = idx :: irest ∧
      data.length = L.NumSubexp re ∧
      (∀ k, k < L.NumSubexp re → data[k]? = m.elems[k + 1]?) ∧
      (∀ k, k < L.NumSubexp re → data[k]? = some (submatchText text idx (k + 1))) ∧
      (∀ k lo, k < L.NumSubexp re → idx[2 * (k + 1)]? = some lo → lo < 0 →
        data[k]? = some []) ∧
      (L.NumSubexp re = 0 → data = []) := by
  rcases parseString_spec L hL c text w with
    ⟨hnone, _⟩ | ⟨i, h, re, m, rest, hi, _, _, hre, hms, hp⟩
  · obtain ⟨h, hmem, hmh⟩ := hm
    exact absurd hmh (hnone h hmem)
  · have hshape := hL.submatch_len re text (-1) m (by rw [hms]; exact List.mem_cons_self _ _)
    have htext := hL.submatch_text re text (-1)
    rw [hms, List.map_cons] at htext
    obtain ⟨idx, irest, hidx⟩ :
        ∃ idx irest, L.FindAllStringSubmatchIndex re text (-1) = idx :: irest := by
      cases hfi : L.FindAllStringSubmatchIndex re text (-1) with
      | nil => rw [hfi] at htext; exact absurd htext (by simp)
      | cons idx irest => exact ⟨idx, irest, rfl⟩
    rw [hidx, List.map_cons] at htext
    have helems : m.elems = (List.range (L.NumSubexp re + 1)).map (submatchText text idx) :=
      (List.cons.inj htext).1
    have htail : ∀ k, m.elems.tail[k]? = m.elems[k + 1]? := by
      intro k
      rw [← List.drop_one, List.getElem?_drop, Nat.add_comm]
    have hsub : ∀ k, k < L.NumSubexp re →
        m.elems.tail[k]? = some (submatchText text idx (k + 1)) := by
      intro k hk
      rw [htail, helems, List.getElem?_map, List.getElem?_range (by omega)]
      rfl
    refine ⟨i, h, re, m, rest, idx, irest, m.elems.tail, _, hp, hi, hre, hms, hidx, ?_,
      fun k _ => htail k, hsub, ?_, ?_⟩
    · rw [List.length_tail, hshape.1]
      rfl
    · intro k lo hk hlo hneg
      rw [hsub k hk]
      unfold submatchText
      rw [hlo]
      split
      · rename_i lo' hi' h1 _
        injection h1 with h1
        rw [if_neg (by omega)]
      · rfl
    · intro h0
      apply List.eq_nil_of_length_eq_zero
      rw [List.length_tail, hshape.1, h0]

/-- C9: with a lawful `regexp`, `parseString` returns for every handler list and
text. A pattern that does not compile is not counted as matching and is never
selected; for the selected pattern `MustCompile` succeeds, there is a first
match, and the indices `1 .. cap-1` used on it are within its length. -/
theorem parseString_returns (L : RegexpLib) (hL : L.Lawful) (c : Client)
    (text : GoString) (w : World) :
    ∃ (which : Int) (data : Option (List GoString)) (w' : World),
      parseString L c text w = .ok ((which, data, none), w') ∧
      (∀ (i : Nat) (h : handler) (e : GoError), c.handlers[i]? = some h →
        L.Compile h.pattern = .error e → ¬ matched L h.pattern text ∧ which ≠ (i : Int)) ∧
      (0 ≤ which →
        ∃ (h : handler) (re : L.Regexp) (m : StrSlice) (rest : List StrSlice),
          c.handlers[which.toNat]? = some h ∧ L.MustCompile h.pattern = .ok re ∧
          L.FindAllStringSubmatch re text (-1) = m :: rest ∧
          1 ≤ m.cap ∧ m.cap ≤ m.elems.length) := by
  have hbad : ∀ (h : handler) (e : GoError), L.Compile h.pattern = .error e →
      ¬ matched L h.pattern text := by
    intro h e he hmh
    obtain ⟨re, hre, _⟩ := (matched_iff L h.pattern text).1 hmh
    rw [he] at hre
    cases hre
  rcases parseString_spec L hL c text w with
    ⟨_, hp⟩ | ⟨i, h, re, m, rest, hi, _, _, hre, hms, hp⟩
  · refine ⟨-1, none, _, hp, ?_, ?_⟩
    · intro i h e _ he
      exact ⟨hbad h e he, by omega⟩
    · intro h0
      omega
  · have hshape := hL.submatch_len re text (-1) m (by rw [hms]; exact List.mem_cons_self _ _)
    refine ⟨(i : Int), some m.elems.tail, _, hp, ?_, ?_⟩
    · intro j h' e hj he
      refine ⟨hbad h' e he, ?_⟩
      intro hij
      have hji : i = j := by omega
      subst hji
      rw [hi] at hj
      injection hj with hj
      subst hj
      rw [hre] at he
      cases he
    · intro _
      refine ⟨h, re, m, rest, by rw [Int.toNat_ofNat]; exact hi, ?_, hms, by omega, by omega⟩
      unfold RegexpLib.MustCompile
      rw [hre]

/-! ## The small engine is lawful -/

/-- A match found by the search starts with its start and end offsets, both natural numbers. -/
theorem Frag.searchFrom_shape (p : Frag.Prog) (s : GoString) :
    ∀ (pos : Nat) (m : List Int), Frag.searchFrom p s pos = some m →
      ∃ (q e : Nat) (caps : List Int), m = (q : Int) :: (e : Int) :: caps := by
  induction s with
  | nil =>
    intro pos m h
    unfold Frag.searchFrom at h
    split at h
    · rename_i e caps _
      injection h with h
      exact ⟨pos, e, caps, h.symm⟩
    · cases h
  | cons c s ih =>
    intro pos m h
    unfold Frag.searchFrom at h
    split at h
    · rename_i e caps _
      injection h with h
      exact ⟨pos, e, caps, h.symm⟩
    · exact ih (pos + 1) m h

/-- When the pattern has a match in the text, the list of all matches is not empty. -/
theorem Frag.allMatches_ne_nil (p : Frag.Prog) (s : GoString)
    (h : (Frag.doExecute p s 0).isSome = true) : Frag.allMatches p s (-1) ≠ [] := by
  obtain ⟨m, hm⟩ := Option.isSome_iff_exists.1 h
  obtain ⟨q, e, caps, hshape⟩ := Frag.searchFrom_shape p _ 0 m hm
  unfold Frag.allMatches
  rw [if_pos (by omega), Frag.allLoop, if_pos ⟨by omega, by omega⟩, hm]
  have hacc : (!(decide ((m[1]?.getD 0) = ((0 : Nat) : Int)) &&
      decide ((m[0]?.getD 0) = (-1 : Int)))) = true := by
    rw [hshape]
    simp only [List.getElem?_cons_zero, Option.getD_some]
    rw [show decide ((q : Int) = -1) = false from decide_eq_false (by omega)]
    simp
  simp only [hacc, if_true]
  exact List.cons_ne_nil _ _

/-- The small engine satisfies the laws assumed of package `regexp`. -/
theorem Frag.lib_lawful : Frag.lib.Lawful where
  find_of_match := by
    intro re s h
    have := Frag.allMatches_ne_nil re s h
    intro hnil
    exact this (List.map_eq_nil_iff.1 hnil)
  submatch_len := by
    intro re s n m hmem
    obtain ⟨idx, _, rfl⟩ := List.mem_map.1 hmem
    exact ⟨by simp [Frag.lib], by simp [Frag.lib]⟩
  submatch_text := by
    intro re s n
    simp only [Frag.lib, List.map_map]
    rfl

/-! ## callHandler -/

/-- The condition of the `if` in `callHandler`, as a proposition. -/
theorem qualifies_iff (c : Client) (channel user text : GoString) :
    ((HasPrefix text (bytes "<@" ++ c.Id ++ bytes ">") || HasPrefix text c.Name
      || HasPrefix channel (bytes "D")) && user != c.Id) = true ↔
    (user ≠ c.Id ∧ (mention c <+: text ∨ c.Name <+: text ∨ bytes "D" <+: channel)) := by
  unfold mention
  rw [Bool.and_eq_true, Bool.or_eq_true, Bool.or_eq_true, hasPrefix_iff, hasPrefix_iff,
    hasPrefix_iff, bne_iff_ne, or_assoc]
  exact And.comm

/-- A message that does not qualify: `callHandler` does nothing and returns nil. -/
theorem callHandler_skip (L : RegexpLib) (c : Client) (channel user time text : GoString)
    (w : World)
    (hq : ¬ (user ≠ c.Id ∧ (mention c <+: text ∨ c.Name <+: text ∨ bytes "D" <+: channel))) :
    callHandler L c channel user time text w = .ok (none, c, w) := by
  unfold callHandler
  rw [if_neg (fun h => hq ((qualifies_iff c channel user text).1 h))]
  rfl

/-- `parseString` only adds its log line to the world. -/
theorem parseString_world (L : RegexpLib) (c : Client) (t : GoString) (w w' : World)
    (r : Int × Option (List GoString) × Option GoError)
    (h : parseString L c t w = .ok (r, w')) :
    w' = { w with log := w.log ++ [.which (selectLoop L t c.handlers 0 (-1))] } := by
  unfold parseString at h
  simp only [bind, Except.bind, pure, Except.pure] at h
  split at h
  · cases h1 : indexHandlers c.handlers (selectLoop L t c.handlers 0 (-1)) with
    | error e => rw [h1] at h; cases h
    | ok hd =>
      rw [h1] at h
      simp only at h
      cases h2 : L.MustCompile hd.pattern with
      | error e => rw [h2] at h; cases h
      | ok re =>
        rw [h2] at h
        simp only at h
        cases h3 : L.FindAllStringSubmatch re t (-1) with
        | nil => rw [h3] at h; cases h
        | cons m rest =>
          rw [h3] at h
          simp only at h
          cases h4 : makeSlice ((m.cap : Int) - 1) with
          | error e => rw [h4] at h; cases h
          | ok v =>
            rw [h4] at h
            simp only at h
            cases h5 : copyLoop m v with
            | error e => rw [h5] at h; cases h
            | ok d =>
              rw [h5] at h
              simp only at h
              injection h with h
              exact (Prod.mk.inj h).2.symm
  · injection h with h
    exact (Prod.mk.inj h).2.symm

/-- A message that qualifies: when `callHandler` returns, the text was stripped
and `parseString` ran on the stripped text (its log line is the last one). -/
theorem callHandler_ran (L : RegexpLib) (c c' : Client) (channel user time text : GoString)
    (w w' : World) (o : Option GoError)
    (hq : user ≠ c.Id ∧ (mention c <+: text ∨ c.Name <+: text ∨ bytes "D" <+: channel))
    (h : callHandler L c channel user time text w = .ok (o, c', w')) :
    ∃ t, removeHighlight c text = .ok t ∧
      w'.log = w.log ++ [.which (selectLoop L t c.handlers 0 (-1))] := by
  unfold callHandler at h
  rw [if_pos ((qualifies_iff c channel user text).2 hq)] at h
  simp only [bind, Except.bind, pure, Except.pure] at h
  cases h1 : removeHighlight c text with
  | error e => rw [h1] at h; cases h
  | ok t =>
    refine ⟨t, rfl, ?_⟩
    rw [h1] at h
    simp only at h
    cases h2 : parseString L c t w with
    | error e => rw [h2] at h; cases h
    | ok r =>
      obtain ⟨⟨which, data, err⟩, w1⟩ := r
      have hw1 := parseString_world L c t w w1 _ h2
      rw [h2] at h
      simp only at h
      split at h
      · injection h with h
        rw [← (Prod.mk.inj (Prod.mk.inj h).2).2, hw1]
      · split at h
        · injection h with h
          rw [← (Prod.mk.inj (Prod.mk.inj h).2).2, hw1]
        · cases h3 : indexHandlers c.handlers which with
          | error e => rw [h3] at h; cases h
          | ok hd =>
            rw [h3] at h
            simp only at h
            unfold write at h
            cases h4 : c.ws with
            | none => rw [h4] at h; cases h
            | some conn =>
              rw [h4] at h
              simp only at h
              injection h with h
              rw [← (Prod.mk.inj (Prod.mk.inj h).2).2, hw1]

/-- A qualifying message whose text strips to `t`, with a lawful `regexp`:
`parseString` runs on `t` and logs its index; for `-1` the call returns nil and
nothing else happens; otherwise the handler at that index is invoked with the
`Response` of the message, the counter is incremented and the reply is handed
to `write`. -/
theorem callHandler_outcome (L : RegexpLib) (hL : L.Lawful) (c : Client)
    (channel user time text t : GoString) (w : World)
    (hq : user ≠ c.Id ∧ (mention c <+: text ∨ c.Name <+: text ∨ bytes "D" <+: channel))
    (hst : removeHighlight c text = .ok t) :
    ∃ (which : Int) (data : Option (List GoString)),
      parseString L c t w
        = .ok ((which, data, none), { w with log := w.log ++ [.which which] }) ∧
      (which = -1 →
        callHandler L c channel user time text w
          = .ok (none, c, { w with log := w.log ++ [.which which] })) ∧
      (which ≠ -1 →
        ∃ (i : Nat) (h : handler) (resp : Response) (frame : Frame),
          which = (i : Int) ∧ c.handlers[i]? = some h ∧ matched L h.pattern t ∧
          resp = { User := user, Time := time, Channel := channel, Data := data } ∧
          frame = { id := wrapInt (c.count + 1), type := bytes "message", channel := channel,
                    text := h.handlerFunc resp } ∧
          (c.ws = none → callHandler L c channel user time text w = .error .nilDeref) ∧
          (∀ conn, c.ws = some conn →
            callHandler L c channel user time text w
              = .ok (conn.WriteJSON w.written frame,
                  { c with count := wrapInt (c.count + 1) },
                  { log := w.log ++ [.which which], written := w.written ++ [frame],
                    invoked := w.invoked ++ [(i, resp)] }))) := by
  have hcond := (qualifies_iff c channel user text).2 hq
  rcases parseString_spec L hL c t w with
    ⟨_, hp⟩ | ⟨i, h, re, m, rest, hi, hm, _, _, _, hp⟩
  · refine ⟨-1, none, hp, ?_, fun hne => absurd rfl hne⟩
    intro _
    unfold callHandler
    rw [if_pos hcond]
    simp only [bind, Except.bind, pure, Except.pure, hst, hp, Option.isSome_none,
      Bool.false_eq_true, if_false, if_true]
  · have hidx : indexHandlers c.handlers (i : Int) = .ok h := by
      unfold indexHandlers
      rw [if_neg (by omega), Int.toNat_ofNat, hi]
    refine ⟨(i : Int), some m.elems.tail, hp, fun hneg => by omega, ?_⟩
    intro _
    refine ⟨i, h, _, _, rfl, hi, hm, rfl, rfl, ?_, ?_⟩
    · intro hws
      unfold callHandler
      rw [if_pos hcond]
      simp only [bind, Except.bind, pure, Except.pure, hst, hp, Option.isSome_none,
        Bool.false_eq_true, if_false, show ¬ ((i : Int) = -1) by omega, hidx, write, hws]
    · intro conn hws
      unfold callHandler
      rw [if_pos hcond]
      simp only [bind, Except.bind, pure, Except.pure, hst, hp, Option.isSome_none,
        Bool.false_eq_true, if_false, show ¬ ((i : Int) = -1) by omega, hidx, write, hws,
        Int.toNat_ofNat]

/-- C2: with a lawful `regexp`, `callHandler` is without effect and returns nil
exactly when the message does not qualify, that is unless `user != Id` and the
text begins with the mention of the id or with the name, or the channel begins
with `"D"`; so a message of the bot itself does nothing even with the mention.
A message that qualifies is stripped: where the slice of `removeHighlight` is
out of range that fault is the outcome of the call, and in every other case
`removeHighlight` returns a text `t`, `parseString` runs on `t`, and either no
pattern matches and the call returns nil, or the selected handler is invoked
with the `Response` of the message and the reply is handed to `write`. This
holds in particular for a message of another user in a `"D"` channel without
any mention. -/
theorem callHandler_dispatches_iff_addressed (L : RegexpLib) (hL : L.Lawful) (c : Client)
    (channel user time text : GoString) (w : World) :
    (callHandler L c channel user time text w = .ok (none, c, w) ↔
      ¬ (user ≠ c.Id ∧ (mention c <+: text ∨ c.Name <+: text ∨ bytes "D" <+: channel))) ∧
    (user = c.Id → callHandler L c channel user time text w = .ok (none, c, w)) ∧
    (user ≠ c.Id → (mention c <+: text ∨ c.Name <+: text ∨ bytes "D" <+: channel) →
      (c.Name <+: text ∧ ¬ mention c <+: text ∧ text.length < c.Id.length) →
      removeHighlight c text = .error .sliceBounds ∧
      callHandler L c channel user time text w = .error .sliceBounds) ∧
    (user ≠ c.Id → (mention c <+: text ∨ c.Name <+: text ∨ bytes "D" <+: channel) →
      ¬ (c.Name <+: text ∧ ¬ mention c <+: text ∧ text.length < c.Id.length) →
      ∃ (t : GoString) (which : Int) (data : Option (List GoString)),
        removeHighlight c text = .ok t ∧
        parseString L c t w
          = .ok ((which, data, none), { w with log := w.log ++ [.which which] }) ∧
        (which = -1 ↔ ∀ h ∈ c.handlers, ¬ matched L h.pattern t) ∧
        (which = -1 →
          callHandler L c channel user time text w
            = .ok (none, c, { w with log := w.log ++ [.which which] })) ∧
        (which ≠ -1 →
          ∃ (i : Nat) (h : handler) (resp : Response) (frame : Frame),
            which = (i : Int) ∧ c.handlers[i]? = some h ∧ matched L h.pattern t ∧
            resp = { User := user, Time := time, Channel := channel, Data := data } ∧
            frame = { id := wrapInt (c.count + 1), type := bytes "message",
                      channel := channel, text := h.handlerFunc resp } ∧
            (c.ws = none → callHandler L c channel user time text w = .error .nilDeref) ∧
            (∀ conn, c.ws = some conn →
              callHandler L c channel user time text w
                = .ok (conn.WriteJSON w.written frame,
                    { c with count := wrapInt (c.count + 1) },
                    { log := w.log ++ [.which which], written := w.written ++ [frame],
                      invoked := w.invoked ++ [(i, resp)] })))) := by
  have hiff : callHandler L c channel user time text w = .ok (none, c, w) ↔
      ¬ (user ≠ c.Id ∧ (mention c <+: text ∨ c.Name <+: text ∨ bytes "D" <+: channel)) := by
    constructor
    · intro h hq
      obtain ⟨t, _, hlog⟩ := callHandler_ran L c c channel user time text w w none hq h
      have := congrArg List.length hlog
      rw [List.length_append] at this
      simp at this
    · exact callHandler_skip L c channel user time text w
  refine ⟨hiff, fun hu => hiff.2 (fun hq => hq.1 hu), ?_, ?_⟩
  · rintro hu hdisj ⟨hname, hmen, hlen⟩
    have hst : removeHighlight c text = .error .sliceBounds := by
      rw [removeHighlight_cases, if_neg hmen, if_pos hname, if_neg (by omega)]
    refine ⟨hst, ?_⟩
    unfold callHandler
    rw [if_pos ((qualifies_iff c channel user text).2 ⟨hu, hdisj⟩)]
    simp only [bind, Except.bind, hst]
  · intro hu hdisj hnf
    obtain ⟨t, hst⟩ : ∃ t, removeHighlight c text = .ok t := by
      rw [removeHighlight_cases]
      by_cases hmen : mention c <+: text
      · exact ⟨_, by rw [if_pos hmen]⟩
      · by_cases hname : c.Name <+: text
        · have hlen : c.Id.length ≤ text.length := by
            by_contra hlt
            exact hnf ⟨hname, hmen, by omega⟩
          exact ⟨_, by rw [if_neg hmen, if_pos hname, if_pos hlen]⟩
        · exact ⟨_, by rw [if_neg hmen, if_neg hname]⟩
    obtain ⟨which, data, hp, hnone, hsome⟩ :=
      callHandler_outcome L hL c channel user time text t w ⟨hu, hdisj⟩ hst
    refine ⟨t, which, data, hst, hp, ?_, hnone, hsome⟩
    rcases parseString_spec L hL c t w with
      ⟨hno, hp'⟩ | ⟨i, h, re, m, rest, hi, hm, _, _, _, hp'⟩
    · rw [hp] at hp'
      injection hp' with hp'
      have hw : which = -1 := (Prod.mk.inj (Prod.mk.inj hp').1).1
      exact ⟨fun _ => hno, fun _ => hw⟩
    · rw [hp] at hp'
      injection hp' with hp'
      have hw : which = (i : Int) := (Prod.mk.inj (Prod.mk.inj hp').1).1
      constructor
      · intro hneg
        omega
      · intro hno
        exact absurd hm (hno h (List.getElem?_mem hi))

/-- C2 at the client `demo`: the message `"hello"` of user `U9` in the channel
`D1`, without any mention, is answered by the handler at index 2; the same text
sent by the bot `U123` itself, with the mention in front, does nothing; and for
the bot `U024BE7LH` the qualifying text `"bot: hi"` ends in the fault of the slice. -/
theorem callHandler_dispatches_iff_addressed_witness :
    Frag.lib.Lawful ∧
    ((callHandler Frag.lib demo (bytes "D1") (bytes "U9") (bytes "1.5") (bytes "hello") w0
        = .ok (none, demo, w0) ↔
      ¬ (bytes "U9" ≠ demo.Id ∧ (mention demo <+: bytes "hello" ∨
          demo.Name <+: bytes "hello" ∨ bytes "D" <+: bytes "D1"))) ∧
    (bytes "U9" = demo.Id →
      callHandler Frag.lib demo (bytes "D1") (bytes "U9") (bytes "1.5") (bytes "hello") w0
        = .ok (none, demo, w0)) ∧
    (bytes "U9" ≠ demo.Id →
      (mention demo <+: bytes "hello" ∨ demo.Name <+: bytes "hello" ∨
        bytes "D" <+: bytes "D1") →
      (demo.Name <+: bytes "hello" ∧ ¬ mention demo <+: bytes "hello" ∧
        (bytes "hello").length < demo.Id.length) →
      removeHighlight demo (bytes "hello") = .error .sliceBounds ∧
      callHandler Frag.lib demo (bytes "D1") (bytes "U9") (bytes "1.5") (bytes "hello") w0
        = .error .sliceBounds) ∧
    (bytes "U9" ≠ demo.Id →
      (mention demo <+: bytes "hello" ∨ demo.Name <+: bytes "hello" ∨
        bytes "D" <+: bytes "D1") →
      ¬ (demo.Name <+: bytes "hello" ∧ ¬ mention demo <+: bytes "hello" ∧
        (bytes "hello").length < demo.Id.length) →
      ∃ (t : GoString) (which : Int) (data : Option (List GoString)),
        removeHighlight demo (bytes "hello") = .ok t ∧
        parseString Frag.lib demo t w0
          = .ok ((which, data, none), { w0 with log := w0.log ++ [.which which] }) ∧
        (which = -1 ↔ ∀ h ∈ demo.handlers, ¬ matched Frag.lib h.pattern t) ∧
        (which = -1 →
          callHandler Frag.lib demo (bytes "D1") (bytes "U9") (bytes "1.5") (bytes "hello") w0
            = .ok (none, demo, { w0 with log := w0.log ++ [.which which] })) ∧
        (which ≠ -1 →
          ∃ (i : Nat) (h : handler) (resp : Response) (frame : Frame),
            which = (i : Int) ∧ demo.handlers[i]? = some h ∧ matched Frag.lib h.pattern t ∧
            resp = { User := bytes "U9", Time := bytes "1.5", Channel := bytes "D1",
                     Data := data } ∧
            frame = { id := wrapInt (demo.count + 1), type := bytes "message",
                      channel := bytes "D1", text := h.handlerFunc resp } ∧
            (demo.ws = none →
              callHandler Frag.lib demo (bytes "D1") (bytes "U9") (bytes "1.5")
                (bytes "hello") w0 = .error .nilDeref) ∧
            (∀ conn, demo.ws = some conn →
              callHandler Frag.lib demo (bytes "D1") (bytes "U9") (bytes "1.5")
                (bytes "hello") w0
                = .ok (conn.WriteJSON w0.written frame,
                    { demo with count := wrapInt (demo.count + 1) },
                    { log := w0.log ++ [.which which], written := w0.written ++ [frame],
                      invoked := w0.invoked ++ [(i, resp)] }))))) ∧
    (bytes "U9" ≠ demo.Id ∧ bytes "D" <+: bytes "D1" ∧ ¬ mention demo <+: bytes "hello") ∧
    callHandler Frag.lib demo (bytes "D1") (bytes "U9") (bytes "1.5") (bytes "hello") w0
      = .ok (none, { demo with count := 1 },
          { log := [.which 2],
            written := [{ id := 1, type := bytes "message", channel := bytes "D1",
                          text := bytes "hello U9 in D1" }],
            invoked := [(2, { User := bytes "U9", Time := bytes "1.5", Channel := bytes "D1",
                              Data := some [bytes "", bytes "l"] })] }) ∧
    callHandler Frag.lib demo (bytes "C1") (bytes "U123") (bytes "1.5")
      (bytes "<@U123> hello") w0 = .ok (none, demo, w0) ∧
    callHandler Frag.lib botLongId (bytes "D1") (bytes "U9") (bytes "1.5")
      (bytes "bot: hi") w0 = .error .sliceBounds :=
  ⟨Frag.lib_lawful,
    callHandler_dispatches_iff_addressed Frag.lib Frag.lib_lawful demo (bytes "D1")
      (bytes "U9") (bytes "1.5") (bytes "hello") w0,
    ⟨by decide, by decide, by decide⟩, rfl, rfl, rfl⟩

/-- C1 at the client `demo` and the text `" hello"`: the patterns at indices 0
and 2 match, and index 2 is returned. -/
theorem parseString_selects_last_match_witness :
    Frag.lib.Lawful ∧
    (∃ (which : Int) (data : Option (List GoString)) (w' : World),
      parseString Frag.lib demo (bytes " hello") w0 = .ok ((which, data, none), w') ∧
      ((which = -1 ∧ data = none) ↔
        ∀ h ∈ demo.handlers, ¬ matched Frag.lib h.pattern (bytes " hello")) ∧
      (which = -1 ↔ ∀ h ∈ demo.handlers, ¬ matched Frag.lib h.pattern (bytes " hello")) ∧
      ((∃ h ∈ demo.handlers, matched Frag.lib h.pattern (bytes " hello")) →
        ∃ (i : Nat) (h : handler), which = (i : Int) ∧ demo.handlers[i]? = some h ∧
          matched Frag.lib h.pattern (bytes " hello") ∧
          ∀ (j : Nat) (h' : handler), demo.handlers[j]? = some h' →
            matched Frag.lib h'.pattern (bytes " hello") → j ≤ i)) ∧
    matched Frag.lib (bytes "hello") (bytes " hello") ∧
    parseString Frag.lib demo (bytes " hello") w0
      = .ok ((2, some [bytes "", bytes "l"], none), ⟨[.which 2], [], []⟩) :=
  ⟨Frag.lib_lawful,
    parseString_selects_last_match Frag.lib Frag.lib_lawful demo (bytes " hello") w0,
    by decide, rfl⟩

/-- C5 at the client `demo` and the text `" hello"`: the selected pattern
`he(y)?(l)lo` has two groups, the first takes no part in the match, and the
data are `["", "l"]`. -/
theorem parseString_data_of_first_match_witness :
    Frag.lib.Lawful ∧
    (∃ h ∈ demo.handlers, matched Frag.lib h.pattern (bytes " hello")) ∧
    (∃ (i : Nat) (h : handler) (re : Frag.lib.Regexp) (m : StrSlice) (rest : List StrSlice)
      (idx : List Int) (irest : List (List Int)) (data : List GoString) (w' : World),
      parseString Frag.lib demo (bytes " hello") w0 = .ok (((i : Int), some data, none), w') ∧
      demo.handlers[i]? = some h ∧ Frag.lib.Compile h.pattern = .ok re ∧
      Frag.lib.FindAllStringSubmatch re (bytes " hello") (-1) = m :: rest ∧
      Frag.lib.FindAllStringSubmatchIndex re (bytes " hello") (-1) = idx :: irest ∧
      data.length = Frag.lib.NumSubexp re ∧
      (∀ k, k < Frag.lib.NumSubexp re → data[k]? = m.elems[k + 1]?) ∧
      (∀ k, k < Frag.lib.NumSubexp re →
        data[k]? = some (submatchText (bytes " hello") idx (k + 1))) ∧
      (∀ k lo, k < Frag.lib.NumSubexp re → idx[2 * (k + 1)]? = some lo → lo < 0 →
        data[k]? = some []) ∧
      (Frag.lib.NumSubexp re = 0 → data = [])) ∧
    parseString Frag.lib demo (bytes " hello") w0
      = .ok ((2, some [bytes "", bytes "l"], none), ⟨[.which 2], [], []⟩) :=
  ⟨Frag.lib_lawful,
    ⟨⟨bytes "hello", fun r => bytes "hi " ++ r.User⟩, List.mem_cons_self _ _, by decide⟩,
    parseString_data_of_first_match Frag.lib Frag.lib_lawful demo (bytes " hello") w0
      ⟨⟨bytes "hello", fun r => bytes "hi " ++ r.User⟩, List.mem_cons_self _ _, by decide⟩,
    rfl⟩

/-- C9 at the client `demo`, whose second pattern `hel(l` does not compile, and
the text `" hello"`. -/
theorem parseString_returns_witness :
    Frag.lib.Lawful ∧
    (∃ e, Frag.lib.Compile (bytes "hel(l") = .error e) ∧
    (∃ (which : Int) (data : Option (List GoString)) (w' : World),
      parseString Frag.lib demo (bytes " hello") w0 = .ok ((which, data, none), w') ∧
      (∀ (i : Nat) (h : handler) (e : GoError), demo.handlers[i]? = some h →
        Frag.lib.Compile h.pattern = .error e →
          ¬ matched Frag.lib h.pattern (bytes " hello") ∧ which ≠ (i : Int)) ∧
      (0 ≤ which →
        ∃ (h : handler) (re : Frag.lib.Regexp) (m : StrSlice) (rest : List StrSlice),
          demo.handlers[which.toNat]? = some h ∧ Frag.lib.MustCompile h.pattern = .ok re ∧
          Frag.lib.FindAllStringSubmatch re (bytes " hello") (-1) = m :: rest ∧
          1 ≤ m.cap ∧ m.cap ≤ m.elems.length)) :=
  ⟨Frag.lib_lawful, ⟨_, rfl⟩,
    parseString_returns Frag.lib Frag.lib_lawful demo (bytes " hello") w0⟩

/-- Incrementing an `int` below the largest one does not wrap. -/
theorem wrapInt_succ (n : Int) (hlo : -(2 : Int) ^ 63 ≤ n) (hhi : n < maxInt) :
    wrapInt (n + 1) = n + 1 := by
  unfold wrapInt
  unfold maxInt at hhi
  norm_num at hlo hhi ⊢
  omega

/-- C6: in a run of `callHandler` with a lawful `regexp`, an open connection and
a counter below the largest `int`, where stripping the text of a qualifying
message yields `t`: if the message qualifies and some pattern matches `t`, the
selected handler is invoked once with the `Response` of the message and the data
of `parseString`, the counter becomes its old value plus one, and one frame is
written, with the new counter as id, type `"message"`, the channel of the
message and the output of the handler as text; otherwise the call returns nil,
the counter is unchanged, no handler is invoked and no frame is written. -/
theorem callHandler_reply (L : RegexpLib) (hL : L.Lawful) (c : Client) (conn : Conn)
    (channel user time text t : GoString) (w : World)
    (hws : c.ws = some conn) (hlo : -(2 : Int) ^ 63 ≤ c.count) (hhi : c.count < maxInt)
    (hstrip : (user ≠ c.Id ∧ (mention c <+: text ∨ c.Name <+: text ∨ bytes "D" <+: channel)) →
      removeHighlight c text = .ok t) :
    (((user ≠ c.Id ∧ (mention c <+: text ∨ c.Name <+: text ∨ bytes "D" <+: channel)) ∧
        ∃ h ∈ c.handlers, matched L h.pattern t) →
      ∃ (i : Nat) (h : handler) (data : List GoString) (resp : Response) (frame : Frame),
        c.handlers[i]? = some h ∧
        parseString L c t w
          = .ok (((i : Int), some data, none), { w with log := w.log ++ [.which (i : Int)] }) ∧
        resp = { User := user, Time := time, Channel := channel, Data := some data } ∧
        frame = { id := c.count + 1, type := bytes "message", channel := channel,
                  text := h.handlerFunc resp } ∧
        callHandler L c channel user time text w
          = .ok (conn.WriteJSON w.written frame, { c with count := c.count + 1 },
              { log := w.log ++ [.which (i : Int)], written := w.written ++ [frame],
                invoked := w.invoked ++ [(i, resp)] })) ∧
    (¬ ((user ≠ c.Id ∧ (mention c <+: text ∨ c.Name <+: text ∨ bytes "D" <+: channel)) ∧
        ∃ h ∈ c.handlers, matched L h.pattern t) →
      ∃ w', callHandler L c channel user time text w = .ok (none, c, w') ∧
        w'.written = w.written ∧ w'.invoked = w.invoked) := by
  constructor
  · rintro ⟨hq, hex⟩
    have hst := hstrip hq
    rcases parseString_spec L hL c t w with
      ⟨hnone, _⟩ | ⟨i, h, re, m, rest, hi, _, _, _, _, hp⟩
    · obtain ⟨h, hmem, hmh⟩ := hex
      exact absurd hmh (hnone h hmem)
    · refine ⟨i, h, m.elems.tail, _, _, hi, hp, rfl, rfl, ?_⟩
      have hidx : indexHandlers c.handlers (i : Int) = .ok h := by
        unfold indexHandlers
        rw [if_neg (by omega), Int.toNat_ofNat, hi]
      unfold callHandler
      rw [if_pos ((qualifies_iff c channel user text).2 hq)]
      simp only [bind, Except.bind, pure, Except.pure, hst, hp, Option.isSome_none,
        Bool.false_eq_true, if_false, show ¬ ((i : Int) = -1) by omega, hidx, write, hws,
        wrapInt_succ c.count hlo hhi, Int.toNat_ofNat]
  · intro hno
    by_cases hq : user ≠ c.Id ∧ (mention c <+: text ∨ c.Name <+: text ∨ bytes "D" <+: channel)
    · have hst := hstrip hq
      have hnone : ∀ h ∈ c.handlers, ¬ matched L h.pattern t :=
        fun h hmem hmh => hno ⟨hq, h, hmem, hmh⟩
      rcases parseString_spec L hL c t w with
        ⟨_, hp⟩ | ⟨i, h, re, m, rest, hi, hmh, _, _, _, _⟩
      · refine ⟨{ w with log := w.log ++ [.which (-1)] }, ?_, rfl, rfl⟩
        unfold callHandler
        rw [if_pos ((qualifies_iff c channel user text).2 hq)]
        simp only [bind, Except.bind, pure, Except.pure, hst, hp, Option.isSome_none,
          Bool.false_eq_true, if_false, if_true]
      · exact absurd hmh (hnone h (List.getElem?_mem hi))
    · exact ⟨w, callHandler_skip L c channel user time text w hq, rfl, rfl⟩

/-- C6 at the client `demo`: the message `"<@U123> hello"` of user `U9` in
channel `C1` is answered by the handler at index 2 with the frame of id 1. -/
theorem callHandler_reply_witness :
    (Frag.lib.Lawful ∧ demo.ws = some okConn ∧ -(2 : Int) ^ 63 ≤ demo.count ∧
      demo.count < maxInt ∧ removeHighlight demo (bytes "<@U123> hello") = .ok (bytes " hello")) ∧
    ((((bytes "U9" ≠ demo.Id ∧ (mention demo <+: bytes "<@U123> hello" ∨
          demo.Name <+: bytes "<@U123> hello" ∨ bytes "D" <+: bytes "C1")) ∧
        ∃ h ∈ demo.handlers, matched Frag.lib h.pattern (bytes " hello")) →
      ∃ (i : Nat) (h : handler) (data : List GoString) (resp : Response) (frame : Frame),
        demo.handlers[i]? = some h ∧
        parseString Frag.lib demo (bytes " hello") w0
          = .ok (((i : Int), some data, none), { w0 with log := w0.log ++ [.which (i : Int)] }) ∧
        resp = { User := bytes "U9", Time := bytes "1.5", Channel := bytes "C1",
                 Data := some data } ∧
        frame = { id := demo.count + 1, type := bytes "message", channel := bytes "C1",
                  text := h.handlerFunc resp } ∧
        callHandler Frag.lib demo (bytes "C1") (bytes "U9") (bytes "1.5") (bytes "<@U123> hello") w0
          = .ok (okConn.WriteJSON w0.written frame, { demo with count := demo.count + 1 },
              { log := w0.log ++ [.which (i : Int)], written := w0.written ++ [frame],
                invoked := w0.invoked ++ [(i, resp)] })) ∧
    (¬ ((bytes "U9" ≠ demo.Id ∧ (mention demo <+: bytes "<@U123> hello" ∨
          demo.Name <+: bytes "<@U123> hello" ∨ bytes "D" <+: bytes "C1")) ∧
        ∃ h ∈ demo.handlers, matched Frag.lib h.pattern (bytes " hello")) →
      ∃ w', callHandler Frag.lib demo (bytes "C1") (bytes "U9") (bytes "1.5")
          (bytes "<@U123> hello") w0 = .ok (none, demo, w') ∧
        w'.written = w0.written ∧ w'.invoked = w0.invoked)) ∧
    callHandler Frag.lib demo (bytes "C1") (bytes "U9") (bytes "1.5") (bytes "<@U123> hello") w0
      = .ok (none, { demo with count := 1 },
          { log := [.which 2],
            written := [{ id := 1, type := bytes "message", channel := bytes "C1",
                          text := bytes "hello U9 in C1" }],
            invoked := [(2, { User := bytes "U9", Time := bytes "1.5", Channel := bytes "C1",
                              Data := some [bytes "", bytes "l"] })] }) :=
  ⟨⟨Frag.lib_lawful, rfl, by decide, by decide, rfl⟩,
    callHandler_reply Frag.lib Frag.lib_lawful demo okConn (bytes "C1") (bytes "U9")
      (bytes "1.5") (bytes "<@U123> hello") (bytes " hello") w0 rfl (by decide) (by decide)
      (fun _ => rfl),
    rfl⟩

/-! ## The router of Start -/

/-- The type assertion succeeds exactly on strings. -/
theorem assertString_eq (v : Value) :
    (∃ s, v = .str s ∧ assertString v = .ok s) ∨
    ((∀ s, v ≠ .str s) ∧ assertString v = .error .typeAssertion) := by
  cases v with
  | str s => exact Or.inl ⟨s, rfl, rfl⟩
  | null => exact Or.inr ⟨fun s h => (by cases h), rfl⟩
  | bool b => exact Or.inr ⟨fun s h => (by cases h), rfl⟩
  | number n => exact Or.inr ⟨fun s h => (by cases h), rfl⟩
  | array l => exact Or.inr ⟨fun s h => (by cases h), rfl⟩
  | object l => exact Or.inr ⟨fun s h => (by cases h), rfl⟩

/-- The handling step on one envelope: it returns when the envelope is well
formed, starting a dispatch task exactly for a `message`, and faults otherwise. -/
theorem Start.handle_cases (ev : Envelope) (w : World) :
    (ev.WellFormed ∧ ∃ s w', Start.handle ev w = .ok (s, w') ∧
      (s.isSome = true ↔ ev.index (bytes "type") = .str (bytes "message"))) ∨
    (¬ ev.WellFormed ∧ Start.handle ev w = .error .typeAssertion) := by
  unfold Envelope.WellFormed Start.handle
  rcases assertString_eq (ev.index (bytes "type")) with ⟨t, hty, hat⟩ | ⟨hty, hat⟩
  · by_cases hmsg : t = bytes "message"
    · subst hmsg
      simp only [hat, bind, Except.bind, show ¬ (bytes "message" = bytes "hello") by decide,
        if_false, if_true]
      rcases assertString_eq (ev.index (bytes "channel")) with ⟨ch, hch, hach⟩ | ⟨hch, hach⟩
      · rcases assertString_eq (ev.index (bytes "user")) with ⟨u, hu, hau⟩ | ⟨hu, hau⟩
        · rcases assertString_eq (ev.index (bytes "ts")) with ⟨ts, hts, hats⟩ | ⟨hts, hats⟩
          · rcases assertString_eq (ev.index (bytes "text")) with ⟨tx, htx, hatx⟩ | ⟨htx, hatx⟩
            · refine Or.inl ⟨⟨_, hty, fun _ => ⟨ch, u, ts, tx, hch, hu, hts, htx⟩⟩, ?_⟩
              simp only [hach, hau, hats, hatx, pure, Except.pure]
              exact ⟨_, _, rfl, by simp [hty]⟩
            · refine Or.inr ⟨?_, by simp only [hach, hau, hats, hatx]⟩
              rintro ⟨t', ht', hall⟩
              rw [hty] at ht'
              injection ht' with ht'
              obtain ⟨_, _, _, tx, _, _, _, h4⟩ := hall ht'.symm
              exact htx tx h4
          · refine Or.inr ⟨?_, by simp only [hach, hau, hats]⟩
            rintro ⟨t', ht', hall⟩
            rw [hty] at ht'
            injection ht' with ht'
            obtain ⟨_, _, ts, _, _, _, h3, _⟩ := hall ht'.symm
            exact hts ts h3
        · refine Or.inr ⟨?_, by simp only [hach, hau]⟩
          rintro ⟨t', ht', hall⟩
          rw [hty] at ht'
          injection ht' with ht'
          obtain ⟨_, u, _, _, _, h2, _, _⟩ := hall ht'.symm
          exact hu u h2
      · refine Or.inr ⟨?_, by simp only [hach]⟩
        rintro ⟨t', ht', hall⟩
        rw [hty] at ht'
        injection ht' with ht'
        obtain ⟨ch, _, _, _, h1, _, _, _⟩ := hall ht'.symm
        exact hch ch h1
    · refine Or.inl ⟨⟨t, hty, fun h => absurd h hmsg⟩, ?_⟩
      have hne : ¬ (ev.index (bytes "type") = .str (bytes "message")) := by
        rw [hty]
        intro h
        injection h with h
        exact hmsg h
      simp only [hat, bind, Except.bind, if_neg hmsg, pure, Except.pure]
      split_ifs <;> exact ⟨_, _, rfl, by simp [hne]⟩
  · refine Or.inr ⟨?_, by simp only [hat, bind, Except.bind]⟩
    rintro ⟨t, ht, _⟩
    exact hty t ht

/-- The two forms of the condition on an envelope agree. -/
theorem Envelope.wellFormed_iff (ev : Envelope) : ev.wellFormed = true ↔ ev.WellFormed := by
  have hstr : ∀ v : Value, v.isStr = true ↔ ∃ s, v = .str s := by
    intro v
    cases v <;> simp [Value.isStr]
  unfold Envelope.wellFormed Envelope.WellFormed
  cases hty : ev.index (bytes "type") with
  | str t =>
    by_cases hmsg : t = bytes "message"
    · simp only [if_pos hmsg, Bool.and_eq_true, hstr]
      constructor
      · rintro ⟨⟨⟨⟨ch, h1⟩, ⟨u, h2⟩⟩, ⟨ts, h3⟩⟩, ⟨tx, h4⟩⟩
        exact ⟨t, rfl, fun _ => ⟨ch, u, ts, tx, h1, h2, h3, h4⟩⟩
      · rintro ⟨t', ht', hall⟩
        injection ht' with ht'
        obtain ⟨ch, u, ts, tx, h1, h2, h3, h4⟩ := hall (ht' ▸ hmsg)
        exact ⟨⟨⟨⟨ch, h1⟩, ⟨u, h2⟩⟩, ⟨ts, h3⟩⟩, ⟨tx, h4⟩⟩
    · simp only [if_neg hmsg, true_iff]
      exact ⟨t, rfl, fun h => absurd h hmsg⟩
  | null => simp
  | bool b => simp
  | number n => simp
  | array l => simp
  | object l => simp

/-- C7 (as amended): the handling step of `Start` returns for an envelope whose
`type` is a string and, for a `message`, whose `channel`, `user`, `ts` and `text`
are strings, and a run over such envelopes handles them all; on any other
envelope the unchecked type assertion faults, and the run ends there: the
envelope is not skipped. -/
theorem Start_handle_returns_iff_wellFormed (ev : Envelope) (pre post : List Envelope)
    (w : World) :
    (ev.wellFormed = true → ∃ s w', Start.handle ev w = .ok (s, w') ∧
      (s.isSome = true ↔ ev.index (bytes "type") = .str (bytes "message"))) ∧
    (ev.wellFormed = false → Start.handle ev w = .error .typeAssertion) ∧
    ((∀ e ∈ pre, e.wellFormed = true) → ∃ ss w', Start.loop pre w = .ok (ss, w')) ∧
    ((∀ e ∈ pre, e.wellFormed = true) → ev.wellFormed = false →
      Start.loop (pre ++ ev :: post) w = .error .typeAssertion) := by
  have hloop : ∀ (l : List Envelope) (w : World), (∀ e ∈ l, e.wellFormed = true) →
      ∃ ss w', Start.loop l w = .ok (ss, w') := by
    intro l
    induction l with
    | nil => intro w _; exact ⟨[], w, rfl⟩
    | cons e l ih =>
      intro w hall
      rcases Start.handle_cases e w with ⟨_, s, w1, h1, _⟩ | ⟨hbad, _⟩
      · obtain ⟨ss, w2, h2⟩ := ih w1 (fun e' he' => hall e' (List.mem_cons_of_mem _ he'))
        refine ⟨s.toList ++ ss, w2, ?_⟩
        rw [Start.loop]
        simp only [h1, h2, bind, Except.bind, pure, Except.pure]
      · exact absurd ((Envelope.wellFormed_iff e).1 (hall e (List.mem_cons_self _ _))) hbad
  have hstop : ∀ (l : List Envelope) (w : World), (∀ e ∈ l, e.wellFormed = true) →
      ¬ ev.WellFormed → Start.loop (l ++ ev :: post) w = .error .typeAssertion := by
    intro l
    induction l with
    | nil =>
      intro w _ hbad
      rcases Start.handle_cases ev w with ⟨hgood, _⟩ | ⟨_, h1⟩
      · exact absurd hgood hbad
      · rw [List.nil_append, Start.loop]
        simp only [h1, bind, Except.bind]
    | cons e l ih =>
      intro w hall hbad
      rcases Start.handle_cases e w with ⟨_, s, w1, h1, _⟩ | ⟨hbad', _⟩
      · have h2 := ih w1 (fun e' he' => hall e' (List.mem_cons_of_mem _ he')) hbad
        rw [List.cons_append, Start.loop]
        simp only [h1, h2, bind, Except.bind]
      · exact absurd ((Envelope.wellFormed_iff e).1 (hall e (List.mem_cons_self _ _))) hbad'
  have hneg : ev.wellFormed = false → ¬ ev.WellFormed := by
    intro hf hgood
    rw [(Envelope.wellFormed_iff ev).2 hgood] at hf
    cases hf
  refine ⟨?_, ?_, hloop pre w, fun hall hf => hstop pre w hall (hneg hf)⟩
  · intro hgood
    rcases Start.handle_cases ev w with ⟨_, h⟩ | ⟨hbad, _⟩
    · exact h
    · exact absurd ((Envelope.wellFormed_iff ev).1 hgood) hbad
  · intro hf
    rcases Start.handle_cases ev w with ⟨hgood, _⟩ | ⟨_, h⟩
    · exact absurd hgood (hneg hf)
    · exact h

/-- C7 (as stated) fails: a `message` envelope without `text`, and an envelope
whose `type` is a number, both carry a type tag and are forwarded by `read`; the
handling step faults on each, and a run that meets one never reaches the
`hello` envelope after it. -/
theorem Start_handle_faults_on_malformed :
    (read.forwards noTextEv = true ∧ read.forwards numTypeEv = true) ∧
    (noTextEv.wellFormed = false ∧ numTypeEv.wellFormed = false) ∧
    Start.handle noTextEv w0 = .error .typeAssertion ∧
    Start.handle numTypeEv w0 = .error .typeAssertion ∧
    Start.loop (read [noTextEv, helloEv]) w0 = .error .typeAssertion ∧
    Start.loop (read [numTypeEv, helloEv]) w0 = .error .typeAssertion :=
  ⟨⟨by decide, by decide⟩, ⟨rfl, rfl⟩, rfl, rfl, rfl, rfl⟩

/-! ## New -/

/-- C8: `New` returns an error and no client exactly for the empty token; for
any other token it returns the client that holds the token, with counter 0, no
handlers and no connection. `New` takes no `World` and no `Conn`: it has no effect. -/
theorem New_fails_iff_empty_token (token : GoString) :
    (((New token).1.isNone = true ∧ (New token).2.isSome = true) ↔ token = bytes "") ∧
    ((New token).2.isSome = true ↔ token = bytes "") ∧
    ((New token).1.isNone = true ↔ token = bytes "") ∧
    (token ≠ bytes "" →
      ∃ c, New token = (some c, none) ∧ c.token = token ∧ c.count = 0 ∧ c.handlers = [] ∧
        c.ws.isNone = true) ∧
    (token = bytes "" → New token = (none, some ⟨"Missing slack api token"⟩)) := by
  unfold New
  by_cases h : token = bytes ""
  · rw [if_pos h]
    simp [h]
  · rw [if_neg h]
    simp [h]

end Slackbot
